import Mathlib

/-!
Verification of the extraction-normalization-persistence pipeline of
dp_updater.py (job-posting ingestion), as a shallow embedding in Lean.

Conventions of the embedding:
- Loosely-typed JSON values decoded from the model response are the
  inductive type JValue; Python dictionaries become association lists whose
  parse keeps at most one binding per key (json.loads keeps the last value
  for a duplicated key).
- Calendar dates (Python datetime.date) are day numbers (Int) through the
  standard civil-from-days correspondence; date subtraction by a timedelta
  of n days is integer subtraction, matching Python date ordering.
- The database connection is modelled explicitly: the table content is a
  list of rows, and the outcome of one INSERT execution is either ok, an
  IntegrityError, or any other error.  External failure causes (connection
  loss and the like) are injected through a list of per-execution faults;
  with no injected fault the outcome is computed from the declared schema
  constraints.
- A Python exception that the source does not catch at record level is
  modelled as Option.none bubbling up to the transaction handler, which
  rolls back (the final state keeps the original table).
-/

namespace DpUpdater

/-! ### JSON values (result of json.loads) -/

inductive JValue where
  | nullv
  | boolv (b : Bool)
  | numv (lex : String)
  | strv (s : String)
  | arrv (elems : List JValue)
  | objv (fields : List (String × JValue))
deriving Repr

mutual

def decEqJValue : (a b : JValue) → Decidable (a = b)
  | .nullv, .nullv => isTrue rfl
  | .boolv a, .boolv b =>
    match decEq a b with
    | isTrue h => isTrue (by rw [h])
    | isFalse h => isFalse (by intro hc; cases hc; exact h rfl)
  | .numv a, .numv b =>
    match decEq a b with
    | isTrue h => isTrue (by rw [h])
    | isFalse h => isFalse (by intro hc; cases hc; exact h rfl)
  | .strv a, .strv b =>
    match decEq a b with
    | isTrue h => isTrue (by rw [h])
    | isFalse h => isFalse (by intro hc; cases hc; exact h rfl)
  | .arrv a, .arrv b =>
    match decEqJList a b with
    | isTrue h => isTrue (by rw [h])
    | isFalse h => isFalse (by intro hc; cases hc; exact h rfl)
  | .objv a, .objv b =>
    match decEqJFields a b with
    | isTrue h => isTrue (by rw [h])
    | isFalse h => isFalse (by intro hc; cases hc; exact h rfl)
  | .nullv, .boolv _ => isFalse (by intro h; cases h)
  | .nullv, .numv _ => isFalse (by intro h; cases h)
  | .nullv, .strv _ => isFalse (by intro h; cases h)
  | .nullv, .arrv _ => isFalse (by intro h; cases h)
  | .nullv, .objv _ => isFalse (by intro h; cases h)
  | .boolv _, .nullv => isFalse (by intro h; cases h)
  | .boolv _, .numv _ => isFalse (by intro h; cases h)
  | .boolv _, .strv _ => isFalse (by intro h; cases h)
  | .boolv _, .arrv _ => isFalse (by intro h; cases h)
  | .boolv _, .objv _ => isFalse (by intro h; cases h)
  | .numv _, .nullv => isFalse (by intro h; cases h)
  | .numv _, .boolv _ => isFalse (by intro h; cases h)
  | .numv _, .strv _ => isFalse (by intro h; cases h)
  | .numv _, .arrv _ => isFalse (by intro h; cases h)
  | .numv _, .objv _ => isFalse (by intro h; cases h)
  | .strv _, .nullv => isFalse (by intro h; cases h)
  | .strv _, .boolv _ => isFalse (by intro h; cases h)
  | .strv _, .numv _ => isFalse (by intro h; cases h)
  | .strv _, .arrv _ => isFalse (by intro h; cases h)
  | .strv _, .objv _ => isFalse (by intro h; cases h)
  | .arrv _, .nullv => isFalse (by intro h; cases h)
  | .arrv _, .boolv _ => isFalse (by intro h; cases h)
  | .arrv _, .numv _ => isFalse (by intro h; cases h)
  | .arrv _, .strv _ => isFalse (by intro h; cases h)
  | .arrv _, .objv _ => isFalse (by intro h; cases h)
  | .objv _, .nullv => isFalse (by intro h; cases h)
  | .objv _, .boolv _ => isFalse (by intro h; cases h)
  | .objv _, .numv _ => isFalse (by intro h; cases h)
  | .objv _, .strv _ => isFalse (by intro h; cases h)
  | .objv _, .arrv _ => isFalse (by intro h; cases h)

def decEqJList : (a b : List JValue) → Decidable (a = b)
  | [], [] => isTrue rfl
  | [], _ :: _ => isFalse (by intro h; cases h)
  | _ :: _, [] => isFalse (by intro h; cases h)
  | x :: xs, y :: ys =>
    match decEqJValue x y, decEqJList xs ys with
    | isTrue h1, isTrue h2 => isTrue (by rw [h1, h2])
    | isFalse h1, _ => isFalse (by intro hc; cases hc; exact h1 rfl)
    | _, isFalse h2 => isFalse (by intro hc; cases hc; exact h2 rfl)

def decEqJFields : (a b : List (String × JValue)) → Decidable (a = b)
  | [], [] => isTrue rfl
  | [], _ :: _ => isFalse (by intro h; cases h)
  | _ :: _, [] => isFalse (by intro h; cases h)
  | (k1, v1) :: xs, (k2, v2) :: ys =>
    match decEq k1 k2, decEqJValue v1 v2, decEqJFields xs ys with
    | isTrue h0, isTrue h1, isTrue h2 => isTrue (by rw [h0, h1, h2])
    | isFalse h0, _, _ => isFalse (by intro hc; cases hc; exact h0 rfl)
    | _, isFalse h1, _ => isFalse (by intro hc; cases hc; exact h1 rfl)
    | _, _, isFalse h2 => isFalse (by intro hc; cases hc; exact h2 rfl)

end

instance : DecidableEq JValue := decEqJValue

/-! ### A model of the standard-library json.loads used at line 322.

The decoder follows the JSON grammar that the json module implements in
its default strict mode: a document is one value surrounded by optional
whitespace; an object keeps the last value of a duplicated key; strings
accept the standard escapes; numbers forbid a leading zero; control
characters are rejected inside strings; the NaN, Infinity and -Infinity
constants are accepted, as the json module does by default (-Infinity is
scanned where a number fails, matching the scanner order).  Recursion is
bounded by a fuel argument that is ample for any input of the given
length. -/

def isWsChar (c : Char) : Bool :=
  c = ' ' || c = '\t' || c = '\n' || c = '\x0d'

def skipWs : List Char → List Char
  | [] => []
  | c :: rest => if isWsChar c then skipWs rest else c :: rest

def hexVal (c : Char) : Option Nat :=
  if '0' ≤ c ∧ c ≤ '9' then some (c.toNat - '0'.toNat)
  else if 'a' ≤ c ∧ c ≤ 'f' then some (c.toNat - 'a'.toNat + 10)
  else if 'A' ≤ c ∧ c ≤ 'F' then some (c.toNat - 'A'.toNat + 10)
  else none

def parseStrLit (fuel : Nat) (l : List Char) (acc : List Char) :
    Option (String × List Char) :=
  match fuel, l with
  | 0, _ => none
  | _, [] => none
  | f + 1, c :: rest =>
    if c = '"' then some (⟨acc.reverse⟩, rest)
    else if c = '\\' then
      match rest with
      | [] => none
      | e :: rest2 =>
        if e = '"' then parseStrLit f rest2 ('"' :: acc)
        else if e = '\\' then parseStrLit f rest2 ('\\' :: acc)
        else if e = '/' then parseStrLit f rest2 ('/' :: acc)
        else if e = 'b' then parseStrLit f rest2 ('\x08' :: acc)
        else if e = 'f' then parseStrLit f rest2 ('\x0c' :: acc)
        else if e = 'n' then parseStrLit f rest2 ('\n' :: acc)
        else if e = 'r' then parseStrLit f rest2 ('\x0d' :: acc)
        else if e = 't' then parseStrLit f rest2 ('\t' :: acc)
        else if e = 'u' then
          match rest2 with
          | h1 :: h2 :: h3 :: h4 :: rest3 =>
            match hexVal h1, hexVal h2, hexVal h3, hexVal h4 with
            | some a, some b, some c2, some d =>
              parseStrLit f rest3 (Char.ofNat (a * 4096 + b * 256 + c2 * 16 + d) :: acc)
            | _, _, _, _ => none
          | _ => none
        else none
    else if c.toNat < 32 then none
    else parseStrLit f rest (c :: acc)

def dropLit (lit : List Char) (l : List Char) : Option (List Char) :=
  if lit.isPrefixOf l then some (l.drop lit.length) else none

def parseFrac : List Char → Option (List Char × List Char)
  | '.' :: r =>
    let fd := r.takeWhile (·.isDigit)
    if fd.isEmpty then none else some ('.' :: fd, r.dropWhile (·.isDigit))
  | l => some ([], l)

def parseExp : List Char → Option (List Char × List Char)
  | [] => some ([], [])
  | c :: r =>
    if c = 'e' ∨ c = 'E' then
      let sr : List Char × List Char :=
        match r with
        | s :: r2 => if s = '+' ∨ s = '-' then ([s], r2) else ([], r)
        | [] => ([], r)
      let ed := sr.2.takeWhile (·.isDigit)
      if ed.isEmpty then none
      else some (c :: (sr.1 ++ ed), sr.2.dropWhile (·.isDigit))
    else some ([], c :: r)

def parseNumber (l : List Char) : Option (JValue × List Char) :=
  let nl : List Char × List Char :=
    match l with
    | '-' :: r => (['-'], r)
    | _ => ([], l)
  let intd := nl.2.takeWhile (·.isDigit)
  let l2 := nl.2.dropWhile (·.isDigit)
  if intd.isEmpty then none
  else if 1 < intd.length ∧ intd.headD 'x' = '0' then none
  else
    match parseFrac l2 with
    | none => none
    | some (fr, l3) =>
      match parseExp l3 with
      | none => none
      | some (ex, l4) => some (.numv ⟨nl.1 ++ intd ++ fr ++ ex⟩, l4)

/-- Binding a key in a decoded object: json.loads keeps the position of the
first occurrence of a key and the value of the last one. -/
def dictSet (kvs : List (String × JValue)) (k : String) (v : JValue) :
    List (String × JValue) :=
  if kvs.any (fun p => p.1 = k) then
    kvs.map (fun p => if p.1 = k then (k, v) else p)
  else kvs ++ [(k, v)]

mutual

def parseValue : Nat → List Char → Option (JValue × List Char)
  | 0, _ => none
  | _ + 1, [] => none
  | fuel + 1, '[' :: rest =>
    (match skipWs rest with
     | ']' :: r => some (.arrv [], r)
     | l2 => parseArrItems fuel l2 [])
  | fuel + 1, '{' :: rest =>
    (match skipWs rest with
     | '}' :: r => some (.objv [], r)
     | l2 => parseObjItems fuel l2 [])
  | _ + 1, '"' :: rest =>
    (match parseStrLit (rest.length + 1) rest [] with
     | some (s, r) => some (.strv s, r)
     | none => none)
  | _ + 1, c :: rest =>
    if c = 't' then (dropLit "rue".data rest).map (fun r => (.boolv true, r))
    else if c = 'f' then (dropLit "alse".data rest).map (fun r => (.boolv false, r))
    else if c = 'n' then (dropLit "ull".data rest).map (fun r => (.nullv, r))
    else if c = 'N' then (dropLit "aN".data rest).map (fun r => (.numv "NaN", r))
    else if c = 'I' then
      (dropLit "nfinity".data rest).map (fun r => (.numv "Infinity", r))
    else if c = '-' ∨ c.isDigit then
      (match parseNumber (c :: rest) with
       | some res => some res
       | none =>
         if c = '-' then
           (dropLit "Infinity".data rest).map (fun r => (.numv "-Infinity", r))
         else none)
    else none

def parseArrItems : Nat → List Char → List JValue → Option (JValue × List Char)
  | 0, _, _ => none
  | fuel + 1, l, acc =>
    match parseValue fuel l with
    | none => none
    | some (v, r) =>
      match skipWs r with
      | ',' :: r2 => parseArrItems fuel (skipWs r2) (acc ++ [v])
      | ']' :: r2 => some (.arrv (acc ++ [v]), r2)
      | _ => none

def parseObjItems : Nat → List Char → List (String × JValue) →
    Option (JValue × List Char)
  | 0, _, _ => none
  | fuel + 1, l, acc =>
    match l with
    | '"' :: r =>
      match parseStrLit (r.length + 1) r [] with
      | none => none
      | some (k, r2) =>
        match skipWs r2 with
        | ':' :: r3 =>
          match parseValue fuel (skipWs r3) with
          | none => none
          | some (v, r4) =>
            match skipWs r4 with
            | ',' :: r5 => parseObjItems fuel (skipWs r5) (dictSet acc k v)
            | '}' :: r5 => some (.objv (dictSet acc k v), r5)
            | _ => none
        | _ => none
    | _ => none

end

def json_loads (l : List Char) : Option JValue :=
  match parseValue (2 * l.length + 2) (skipWs l) with
  | some (v, r) => if skipWs r = [] then some v else none
  | none => none

/-! ### Python primitives used by the pipeline -/

/-- str.find for a single character: index of the first occurrence. -/
def findIdxCh (c : Char) : List Char → Option Nat
  | [] => none
  | x :: rest => if x = c then some 0 else (findIdxCh c rest).map (· + 1)

/-- str.rfind for a single character: index of the last occurrence. -/
def rfindIdxCh (c : Char) (l : List Char) : Option Nat :=
  (findIdxCh c l.reverse).map (fun i => l.length - 1 - i)

/-- The slice l[a:b] with clamping, 0 ≤ a, b. -/
def sliceList (l : List Char) (a b : Nat) : List Char :=
  (l.take b).drop a

/-- dict.get(key, default) on a decoded JSON object. -/
def pyGet (kvs : List (String × JValue)) (k : String) (dflt : JValue) : JValue :=
  match kvs.find? (fun p => p.1 = k) with
  | some p => p.2
  | none => dflt

/-- Python truthiness of a decoded JSON value. -/
def pyTruthy : JValue → Bool
  | .nullv => false
  | .boolv b => b
  | .numv lex =>
    if lex = "NaN" ∨ lex = "Infinity" ∨ lex = "-Infinity" then true
    else (lex.data.takeWhile (fun c => c ≠ 'e' ∧ c ≠ 'E')).any
      (fun c => '1' ≤ c ∧ c ≤ '9')
  | .strv s => !s.data.isEmpty
  | .arrv xs => !xs.isEmpty
  | .objv kvs => !kvs.isEmpty

/-! ### Calendar dates.

A Python datetime.date is represented by its day number in the proleptic
Gregorian calendar (the same total order and day arithmetic as
date.toordinal, shifted by a fixed epoch constant). -/

def isLeapYear (y : Nat) : Bool :=
  (y % 4 == 0 && y % 100 != 0) || y % 400 == 0

def daysInMonth (y m : Nat) : Nat :=
  if m = 2 then (if isLeapYear y then 29 else 28)
  else if m = 4 ∨ m = 6 ∨ m = 9 ∨ m = 11 then 30
  else 31

/-- Day number of the civil date y-m-d (standard days-from-civil algorithm,
valid for the years 1..9999 that datetime accepts). -/
def daysFromCivil (y m d : Nat) : Int :=
  let y2 : Int := if m ≤ 2 then (y : Int) - 1 else (y : Int)
  let era : Int := y2 / 400
  let yoe : Int := y2 - era * 400
  let mp : Int := if 2 < m then (m : Int) - 3 else (m : Int) + 9
  let doy : Int := (153 * mp + 2) / 5 + (d : Int) - 1
  let doe : Int := yoe * 365 + yoe / 4 - yoe / 100 + doy
  era * 146097 + doe - 719468

def digitsToNat (l : List Char) : Nat :=
  l.foldl (fun acc c => acc * 10 + (c.toNat - '0'.toNat)) 0

/-- str.split(sep) for a one-character separator. -/
def splitSep (sep : Char) : List Char → List (List Char)
  | [] => [[]]
  | c :: rest =>
    match splitSep sep rest with
    | [] => [[c]]
    | g :: gs => if c = sep then [] :: g :: gs else (c :: g) :: gs

/-- datetime.strptime(s, d-m-Y).date(): at most two digits of day and of
month, exactly four digits of year (the %Y pattern matches four digits, so
a shorter year raises ValueError), the whole string consumed, and the
resulting calendar date valid (this is what the datetime constructor
checks).  Returns the day number of the parsed date. -/
def parseDMY (s : String) : Option Int :=
  match splitSep '-' s.data with
  | [d, m, y] =>
    if d ≠ [] ∧ d.length ≤ 2 ∧ d.all Char.isDigit ∧
       m ≠ [] ∧ m.length ≤ 2 ∧ m.all Char.isDigit ∧
       y.length = 4 ∧ y.all Char.isDigit then
      let dv := digitsToNat d
      let mv := digitsToNat m
      let yv := digitsToNat y
      if 1 ≤ yv ∧ yv ≤ 9999 ∧ 1 ≤ mv ∧ mv ≤ 12 ∧
         1 ≤ dv ∧ dv ≤ daysInMonth yv mv then
        some (daysFromCivil yv mv dv)
      else none
    else none
  | _ => none

/-- Lines 217-226 of insert_jobs: raw posting_date value to stored date.
posting_date_raw.split(" ")[0] is the text before the first space; it is
parsed with the d-m-Y format, and on any exception (including the
AttributeError of calling split on a non-string) the bare except
substitutes the current date. -/
def postingDateOf (today : Int) (raw : JValue) : Int :=
  match raw with
  | .strv s =>
    (match parseDMY ⟨s.data.takeWhile (· ≠ ' ')⟩ with
     | some d => d
     | none => today)
  | _ => today

/-! ### The row built by insert_jobs for one extracted object -/

structure RowData where
  logo_link : JValue
  job_title : String
  batch : JValue
  company_name : JValue
  location : JValue
  qualification : JValue
  salary : JValue
  apply_link : JValue
  more_details : JValue
  posted_date : Int
deriving DecidableEq, Repr

/-- Lines 212-214: the email-to-mailto repair.  On a string the source
checks truthiness, the presence of a commercial-at and the http test; on a
falsy non-string value the and-chain short-circuits and the value passes
through; on a truthy non-string the containment test raises, which the
per-record handler does not catch, so the batch transaction is rolled back
(none).  (A truthy non-string that survived this line would equally abort
the batch at the INSERT, since the driver rejects it for a string column;
both routes end in the same rollback, which none also covers.) -/
def fixApplyLink : JValue → Option JValue
  | .strv s =>
    some (if s ≠ "" ∧ s.data.any (· = '@') ∧ ¬ ("http".data.isPrefixOf s.data)
          then .strv ("mailto:" ++ s) else .strv s)
  | v => if pyTruthy v then none else some v

/-- Lines 203-242 of insert_jobs: building the row dict for one decoded
object j.  A non-dict j raises at the first attribute access and a
non-string job_title makes the column value unusable; either way the
exception is only caught by the transaction-level handler, hence none. -/
def buildRow (today : Int) (j : JValue) : Option RowData :=
  match j with
  | .objv kvs =>
    (match fixApplyLink (pyGet kvs "apply_link" (.strv "")) with
     | none => none
     | some apply1 =>
       match pyGet kvs "job_title" (.strv "") with
       | .strv t =>
         some ⟨pyGet kvs "logo_url" (.strv ""),
               ⟨t.data.take 512⟩,
               pyGet kvs "batch" (.strv "any"),
               pyGet kvs "company_name" (.strv ""),
               pyGet kvs "location" (.strv "Remote"),
               pyGet kvs "qualification" (.strv "Any Graduate"),
               pyGet kvs "salary" (.strv "Not Disclosed"),
               apply1,
               pyGet kvs "more_details" (.strv ""),
               postingDateOf today (pyGet kvs "posting_date" (.strv ""))⟩
       | _ => none)
  | _ => none

/-! ### The storage schema (lines 49-63) -/

structure ColumnSpec where
  name : String
  dtype : String
  primaryKey : Bool
  nullable : Bool
  unique : Bool
deriving DecidableEq, Repr

/-- The job_postings table exactly as declared: a surrogate autoincrement
primary key and ten payload columns.  No Column carries unique=True and the
Table declares no UniqueConstraint. -/
def job_postings : List ColumnSpec :=
  [⟨"id", "Integer", true, false, false⟩,
   ⟨"logo_link", "String(1024)", false, true, false⟩,
   ⟨"job_title", "String(512)", false, false, false⟩,
   ⟨"batch", "String(128)", false, true, false⟩,
   ⟨"company_name", "Text", false, true, false⟩,
   ⟨"location", "String(256)", false, true, false⟩,
   ⟨"qualification", "Text", false, true, false⟩,
   ⟨"salary", "String(128)", false, true, false⟩,
   ⟨"apply_link", "String(1024)", false, true, false⟩,
   ⟨"more_details", "String(5000)", false, true, false⟩,
   ⟨"posted_date", "Date", false, false, false⟩]

structure StoredRow extends RowData where
  id : Nat
deriving DecidableEq, Repr

def mkStored (nid : Nat) (rd : RowData) : StoredRow := ⟨rd, nid⟩

inductive ColVal where
  | natv (n : Nat)
  | strv (s : String)
  | intv (i : Int)
  | jv (v : JValue)
deriving DecidableEq, Repr

def colValue (r : StoredRow) (c : String) : Option ColVal :=
  if c = "id" then some (.natv r.id)
  else if c = "logo_link" then some (.jv r.logo_link)
  else if c = "job_title" then some (.strv r.job_title)
  else if c = "batch" then some (.jv r.batch)
  else if c = "company_name" then some (.jv r.company_name)
  else if c = "location" then some (.jv r.location)
  else if c = "qualification" then some (.jv r.qualification)
  else if c = "salary" then some (.jv r.salary)
  else if c = "apply_link" then some (.jv r.apply_link)
  else if c = "more_details" then some (.jv r.more_details)
  else if c = "posted_date" then some (.intv r.posted_date)
  else none

/-- A declared uniqueness constraint would be violated when the value of a
unique column of the incoming row already occurs in the table. -/
def violatesUnique (db : List StoredRow) (r : StoredRow) : Bool :=
  (job_postings.filter (fun c => c.unique)).any
    (fun c => db.any (fun r0 => decide (colValue r0 c.name = colValue r c.name)))

inductive Fault where
  | integrityFault
  | otherFault
deriving DecidableEq, Repr

inductive ExecOutcome where
  | ok
  | integrityError
  | otherError
deriving DecidableEq, Repr

/-- Outcome of one conn.execute of an INSERT.  An injected external fault
(connection loss, duplicate signalled by a live database, ...) forces its
outcome; otherwise the outcome follows the declared constraints of the
schema: violating a uniqueness constraint or the primary key raises
IntegrityError, anything else succeeds. -/
def dbExecute (db : List StoredRow) (r : StoredRow) (fault : Option Fault) :
    ExecOutcome :=
  match fault with
  | some .otherFault => .otherError
  | some .integrityFault => .integrityError
  | none =>
    if violatesUnique db r || db.any (fun r0 => decide (r0.id = r.id))
    then .integrityError else .ok

/-! ### insert_jobs (lines 197-257) -/

structure InsertResult where
  db : List StoredRow
  nextId : Nat
  count : Nat
  committed : Bool
deriving DecidableEq, Repr

/-- The for-loop of insert_jobs.  Per record: build the row (an uncaught
exception there aborts, none); execute the INSERT; IntegrityError alone is
caught per record (the record is skipped and not counted); any other
execution error escapes to the transaction handler (none). -/
def insertLoop (today : Int) :
    List JValue → List (Option Fault) → List StoredRow → Nat → Nat →
    Option (List StoredRow × Nat × Nat)
  | [], _, db, nid, cnt => some (db, nid, cnt)
  | j :: rest, faults, db, nid, cnt =>
    match buildRow today j with
    | none => none
    | some rd =>
      let r := mkStored nid rd
      match dbExecute db r (faults.headD none) with
      | .ok => insertLoop today rest faults.tail (db ++ [r]) (nid + 1) (cnt + 1)
      | .integrityError => insertLoop today rest faults.tail db nid cnt
      | .otherError => none

/-- insert_jobs: one transaction around the whole loop; if the loop
finishes, commit; if an exception escapes the loop, roll back, leaving the
table as it was and reporting no inserted records. -/
def insert_jobs (db : List StoredRow) (nid : Nat) (today : Int)
    (faults : List (Option Fault)) (jobs : List JValue) : InsertResult :=
  match insertLoop today jobs faults db nid 0 with
  | some (db2, nid2, cnt) => ⟨db2, nid2, cnt, true⟩
  | none => ⟨db, nid, 0, false⟩

/-! ### delete_old (lines 263-278) -/

/-- delete_old: cutoff = today - 30 days; one DELETE of every row whose
posted_date is strictly before the cutoff, in one transaction; returns the
kept table and the reported rowcount. -/
def delete_old (today : Int) (db : List StoredRow) : List StoredRow × Nat :=
  let cutoff := today - 30
  (db.filter (fun r => !decide (r.posted_date < cutoff)),
   (db.filter (fun r => decide (r.posted_date < cutoff))).length)

/-! ### read_chunks (lines 136-152) -/

/-- The accumulation loop of read_chunks: append each line to the current
group, flush the group when it reaches lines_per_chunk, and flush a
non-empty remainder at the end. -/
def chunkAux (lines_per_chunk : Nat) :
    List String → List String → List (List String)
  | [], current => if current.isEmpty then [] else [current]
  | line :: rest, current =>
    let cur := current ++ [line]
    if cur.length = lines_per_chunk then cur :: chunkAux lines_per_chunk rest []
    else chunkAux lines_per_chunk rest cur

/-- read_chunks on the readlines result (lines keep their newline): each
chunk is the concatenation of its group of lines. -/
def read_chunks (lines : List String) (lines_per_chunk : Nat) : List String :=
  (chunkAux lines_per_chunk lines []).map (fun g => String.join g)

/-! ### clear_all_messages (lines 284-289) -/

/-- clear_all_messages truncates the file to empty. -/
def clear_all_messages (_lines : List String) : List String := []

/-! ### The per-chunk response handling of main (lines 313-326) -/

/-- all_jobs.extend(jobs) for the decoded value jobs.  Iterating a decoded
array extends with its elements; iterating a decoded string extends with
its one-character strings; iterating a decoded object extends with its
keys; a non-iterable value raises TypeError, which the surrounding except
absorbs, so the chunk contributes nothing. -/
def extendResult : JValue → List JValue
  | .arrv xs => xs
  | .strv s => s.data.map (fun c => .strv ⟨[c]⟩)
  | .objv kvs => kvs.map (fun kv => .strv kv.1)
  | _ => []

/-- Lines 313-326: bracket-scan the raw response, decode the slice between
the first open bracket and the last close bracket, and collect the decoded
jobs; every failure leaves the chunk contributing zero records. -/
def processChunk (raw : String) : List JValue :=
  match findIdxCh '[' raw.data, rfindIdxCh ']' raw.data with
  | some s, some e =>
    (match json_loads (sliceList raw.data s (e + 1)) with
     | some v => extendResult v
     | none => [])
  | _, _ => []

/-! ### main (lines 294-338) -/

structure RunState where
  db : List StoredRow
  nextId : Nat
  insertAttempted : Bool
  insertCommitted : Bool
  insertedCount : Nat
  fileCleared : Bool
  fileAfter : List String
deriving DecidableEq, Repr

/-- main: if the input file is missing, return before any processing (the
file is left as it is).  Otherwise read and chunk the file with
lines_per_chunk = 20, ask the completion service per chunk (llm also
covers ask_groq returning the empty string on a service failure), collect
the decoded jobs of every chunk, insert them as one batch when any were
extracted, and clear the input file.  The call to delete_old that the
pipeline would need for pruning is commented out in the source, so no
pruning happens here. -/
def main (fileExists : Bool) (fileLines : List String) (llm : String → String)
    (today : Int) (faults : List (Option Fault)) (db : List StoredRow)
    (nid : Nat) : RunState :=
  if fileExists then
    let chunks := read_chunks fileLines 20
    let all_jobs :=
      (chunks.map (fun chunk =>
        let raw := llm chunk
        if raw = "" then [] else processChunk raw)).flatten
    if all_jobs.isEmpty then
      ⟨db, nid, false, false, 0, true, clear_all_messages fileLines⟩
    else
      let res := insert_jobs db nid today faults all_jobs
      ⟨res.db, res.nextId, true, res.committed, res.count, true,
       clear_all_messages fileLines⟩
  else
    ⟨db, nid, false, false, 0, false, fileLines⟩

/-! ### Concrete sample inputs used by witnesses and counterexamples -/

def sampleToday : Int := daysFromCivil 2024 1 1

def sjob1 : JValue :=
  .objv [("job_title", .strv "Backend Engineer"), ("posting_date", .strv "02-01-2024")]

def sjob2 : JValue :=
  .objv [("job_title", .strv "Data Analyst"), ("posting_date", .strv "01-01-2024")]

def sjob3 : JValue :=
  .objv [("job_title", .strv "QA Engineer"), ("posting_date", .strv "01-01-2030")]

def sampleKvs : List (String × JValue) :=
  [("job_title", .strv "Backend Engineer"), ("posting_date", .strv "02-01-2024")]

def srow1 : RowData :=
  ⟨.strv "", "Backend Engineer", .strv "any", .strv "", .strv "Remote",
   .strv "Any Graduate", .strv "Not Disclosed", .strv "", .strv "",
   daysFromCivil 2024 1 2⟩

def oldRow : StoredRow :=
  ⟨⟨.strv "", "Old Posting", .strv "any", .strv "", .strv "Remote",
    .strv "Any Graduate", .strv "Not Disclosed", .strv "", .strv "",
    sampleToday - 31⟩, 1⟩

def goodResponse : String :=
  "[\x7b\"job_title\": \"SDE\"\x7d]"

/-! ### Helper lemmas about the response decoder -/

theorem skipWs_bracket (t : List Char) : skipWs ('[' :: t) = '[' :: t := rfl

theorem parseArrItems_arrv : ∀ fuel l acc v r,
    parseArrItems fuel l acc = some (v, r) → ∃ xs, v = .arrv xs := by
  intro fuel
  induction fuel with
  | zero => intro l acc v r h; simp [parseArrItems] at h
  | succ f ih =>
    intro l acc v r h
    simp only [parseArrItems] at h
    split at h
    · simp at h
    · split at h
      · exact ih _ _ _ _ h
      · simp at h
        exact ⟨_, h.1.symm⟩
      · simp at h

theorem parseValue_bracket_arrv (fuel : Nat) (rest : List Char) (v : JValue)
    (r : List Char) (h : parseValue fuel ('[' :: rest) = some (v, r)) :
    ∃ xs, v = .arrv xs := by
  match fuel with
  | 0 => simp [parseValue] at h
  | f + 1 =>
    simp only [parseValue] at h
    split at h
    · simp at h
      exact ⟨[], h.1.symm⟩
    · exact parseArrItems_arrv f _ [] v r h

theorem json_loads_bracket_arrv (t : List Char) (v : JValue)
    (h : json_loads ('[' :: t) = some v) : ∃ xs, v = .arrv xs := by
  unfold json_loads at h
  rw [skipWs_bracket] at h
  split at h
  next v0 r heq =>
    split at h
    · have hv := Option.some.inj h
      subst hv
      exact parseValue_bracket_arrv _ _ _ _ heq
    · exact absurd h (by simp)
  next => exact absurd h (by simp)

theorem json_loads_nil : json_loads [] = none := rfl

theorem findIdxCh_drop (c : Char) : ∀ (l : List Char) (s : Nat),
    findIdxCh c l = some s → ∃ t, l.drop s = c :: t := by
  intro l
  induction l with
  | nil => intro s h; simp [findIdxCh] at h
  | cons x rest ih =>
    intro s h
    simp only [findIdxCh] at h
    split at h
    next hxc =>
      cases h
      exact ⟨rest, by simp [hxc]⟩
    next =>
      match hf : findIdxCh c rest with
      | none => rw [hf] at h; simp at h
      | some i =>
        rw [hf] at h
        simp at h
        subst h
        obtain ⟨t, ht⟩ := ih i hf
        exact ⟨t, by simpa using ht⟩

theorem slice_bracket (l : List Char) (s b : Nat) (t0 : List Char)
    (h : l.drop s = '[' :: t0) :
    sliceList l s b = [] ∨ ∃ t, sliceList l s b = '[' :: t := by
  unfold sliceList
  rw [List.drop_take, h]
  cases hbs : b - s with
  | zero => left; rfl
  | succ w => right; exact ⟨t0.take w, rfl⟩

/-- C8.  Response parsing failure modes in the per-chunk loop of main: when
the raw response has no open bracket or no close bracket the chunk yields
zero records; when the slice between the first open bracket and the last
close bracket does not decode, the chunk yields zero records; and a decoded
value that is not an array would also yield zero records (in fact the
decoded value of such a slice is always an array when decoding succeeds,
so this third mode is vacuous).  processChunk is total, so the run
continues past each of these cases. -/
theorem response_parsing_failure_modes (raw : String) :
    ((findIdxCh '[' raw.data = none ∨ rfindIdxCh ']' raw.data = none) →
       processChunk raw = [])
    ∧ (∀ s e, findIdxCh '[' raw.data = some s → rfindIdxCh ']' raw.data = some e →
        json_loads (sliceList raw.data s (e + 1)) = none → processChunk raw = [])
    ∧ (∀ s e v, findIdxCh '[' raw.data = some s → rfindIdxCh ']' raw.data = some e →
        json_loads (sliceList raw.data s (e + 1)) = some v →
        (∀ xs, v ≠ .arrv xs) → processChunk raw = []) := by
  refine ⟨?_, ?_, ?_⟩
  · intro h
    rcases h with h | h
    · cases hr : rfindIdxCh ']' raw.data <;> simp [processChunk, h, hr]
    · cases hf : findIdxCh '[' raw.data <;> simp [processChunk, h, hf]
  · intro s e hs he hl
    simp [processChunk, hs, he, hl]
  · intro s e v hs he hl hne
    obtain ⟨t0, ht0⟩ := findIdxCh_drop '[' raw.data s hs
    rcases slice_bracket raw.data s (e + 1) t0 ht0 with hempty | ⟨t, ht⟩
    · rw [hempty, json_loads_nil] at hl
      exact Option.noConfusion hl
    · rw [ht] at hl
      obtain ⟨xs, rfl⟩ := json_loads_bracket_arrv t v hl
      exact absurd rfl (hne xs)

/-- Witness for C8 at concrete responses: a response with no brackets and a
response whose bracket slice is not valid JSON each contribute zero
records, while a slice holding the NaN constant (which json.loads accepts
by default) decodes and does contribute a record. -/
theorem response_parsing_failure_modes_witness :
    processChunk "no structured content here" = []
    ∧ processChunk "text [oops] more" = []
    ∧ processChunk "x [NaN] y" = [JValue.numv "NaN"] := by
  refine ⟨(response_parsing_failure_modes "no structured content here").1
            (Or.inl (by decide)),
          (response_parsing_failure_modes "text [oops] more").2.1 5 10
            (by decide) (by decide) (by decide),
          by decide⟩

/-! ### Helper lemmas about the chunk segmenter -/

theorem chunkAux_flatten (k : Nat) : ∀ (l cur : List String),
    (chunkAux k l cur).flatten = cur ++ l := by
  intro l
  induction l with
  | nil =>
    intro cur
    simp only [chunkAux]
    split
    next h => simp [List.isEmpty_iff.mp h]
    next => simp
  | cons x rest ih =>
    intro cur
    simp only [chunkAux]
    split
    · simp [ih]
    · rw [ih]
      simp

theorem join_map_join (gs : List (List String)) :
    String.join (gs.map String.join) = String.join gs.flatten := by
  rw [String.join_eq, String.join_eq]
  congr 1
  induction gs with
  | nil => rfl
  | cons g rest ih =>
    simp only [List.map_cons, List.flatten_cons, List.map_append,
      List.flatten_append, String.join_eq, ih]

theorem chunkAux_length (k : Nat) (hk : 0 < k) : ∀ (l cur : List String),
    cur.length < k →
    (chunkAux k l cur).length = (cur.length + l.length + k - 1) / k := by
  intro l
  induction l with
  | nil =>
    intro cur hc
    simp only [chunkAux, List.length_nil]
    split
    next h =>
      obtain rfl := List.isEmpty_iff.mp h
      simp only [List.length_nil]
      exact (Nat.div_eq_of_lt (by omega)).symm
    next h =>
      have hne : cur ≠ [] := fun hn => h (by simp [hn])
      have h1 : 1 ≤ cur.length := by
        cases cur with
        | nil => exact absurd rfl hne
        | cons a l2 => simp
      have harith : cur.length + 0 + k - 1 = (cur.length - 1) + k := by omega
      rw [harith, Nat.add_div_right _ hk, Nat.div_eq_of_lt (by omega)]
      rfl
  | cons x rest ih =>
    intro cur hc
    simp only [chunkAux]
    split
    next hfl =>
      have hlen : cur.length + 1 = k := by
        rw [List.length_append] at hfl
        simpa using hfl
      have harith : cur.length + (x :: rest).length + k - 1
          = (([] : List String).length + rest.length + k - 1) + k := by
        have e1 : (x :: rest).length = rest.length + 1 := rfl
        have e2 : ([] : List String).length = 0 := rfl
        omega
      rw [harith, Nat.add_div_right _ hk, List.length_cons,
        ih [] (by simpa using hk)]
    next hfl =>
      have hl2 : (cur ++ [x]).length = cur.length + 1 := by
        rw [List.length_append]
        rfl
      have hlen : cur.length + 1 ≠ k := by
        rw [hl2] at hfl
        exact hfl
      rw [ih (cur ++ [x]) (by rw [hl2]; omega)]
      congr 1
      rw [hl2, List.length_cons]
      omega

theorem chunkAux_dropLast (k : Nat) (hk : 0 < k) : ∀ (l cur : List String),
    cur.length < k → ∀ g ∈ (chunkAux k l cur).dropLast, g.length = k := by
  intro l
  induction l with
  | nil =>
    intro cur hc g hg
    simp only [chunkAux] at hg
    split at hg <;> simp at hg
  | cons x rest ih =>
    intro cur hc g hg
    simp only [chunkAux] at hg
    split at hg
    next hfl =>
      cases hrest : chunkAux k rest [] with
      | nil => rw [hrest] at hg; simp at hg
      | cons c cs =>
        rw [hrest, List.dropLast_cons_of_ne_nil (by simp)] at hg
        rcases List.mem_cons.mp hg with rfl | hg2
        · simpa using hfl
        · exact ih [] (by simpa using hk) g (by rw [hrest]; exact hg2)
    next hfl =>
      have hl2 : (cur ++ [x]).length = cur.length + 1 := by
        rw [List.length_append]
        rfl
      have hlen : cur.length + 1 ≠ k := by
        rw [hl2] at hfl
        exact hfl
      exact ih (cur ++ [x]) (by rw [hl2]; omega) g hg

/-- C9.  Segmenter round trip: for every line sequence and every positive
lines_per_chunk, the chunks of read_chunks concatenate back to exactly the
original content, the groups flatten back to the original line sequence,
the number of chunks is the ceiling of lines over lines_per_chunk, every
group except possibly the last holds exactly lines_per_chunk lines, and
empty input yields zero chunks. -/
theorem read_chunks_roundtrip (lines : List String) (k : Nat) (hk : 0 < k) :
    String.join (read_chunks lines k) = String.join lines
    ∧ (chunkAux k lines []).flatten = lines
    ∧ (read_chunks lines k).length = (lines.length + k - 1) / k
    ∧ (∀ g ∈ (chunkAux k lines []).dropLast, g.length = k)
    ∧ read_chunks [] k = [] := by
  refine ⟨?_, ?_, ?_, ?_, ?_⟩
  · unfold read_chunks
    rw [join_map_join, chunkAux_flatten]
    rfl
  · simpa using chunkAux_flatten k lines []
  · unfold read_chunks
    rw [List.length_map, chunkAux_length k hk lines [] (by simpa using hk)]
    simp
  · exact chunkAux_dropLast k hk lines [] (by simpa using hk)
  · rfl

/-- Witness for C9 at a concrete input: three lines in chunks of two. -/
theorem read_chunks_roundtrip_witness :
    String.join (read_chunks ["a\n", "b\n", "c\n"] 2) = String.join ["a\n", "b\n", "c\n"]
    ∧ (read_chunks ["a\n", "b\n", "c\n"] 2).length = 2 := by
  have h := read_chunks_roundtrip ["a\n", "b\n", "c\n"] 2 (by decide)
  exact ⟨h.1, h.2.2.1⟩

/-! ### Helper lemmas about the persistence layer -/

theorem violatesUnique_false (db : List StoredRow) (r : StoredRow) :
    violatesUnique db r = false := by
  unfold violatesUnique
  have h : job_postings.filter (fun c => c.unique) = [] := by decide
  rw [h]
  rfl

theorem dbExecute_none_fresh (db : List StoredRow) (r : StoredRow)
    (h : ∀ r0 ∈ db, r0.id ≠ r.id) : dbExecute db r none = .ok := by
  unfold dbExecute
  rw [violatesUnique_false]
  have h2 : db.any (fun r0 => decide (r0.id = r.id)) = false := by
    rw [List.any_eq_false]
    intro r0 hr0
    simpa using h r0 hr0
  rw [h2]
  rfl

theorem dbExecute_none_ne_other (db : List StoredRow) (r : StoredRow) :
    dbExecute db r none ≠ .otherError := by
  simp only [dbExecute]
  split <;> simp

theorem buildRow_posted_date (today : Int) (kvs : List (String × JValue))
    (rd : RowData) (h : buildRow today (.objv kvs) = some rd) :
    rd.posted_date = postingDateOf today (pyGet kvs "posting_date" (.strv "")) := by
  simp only [buildRow] at h
  rcases hfa : fixApplyLink (pyGet kvs "apply_link" (.strv "")) with _ | apply1
  · rw [hfa] at h
    simp at h
  · rw [hfa] at h
    cases hjt : pyGet kvs "job_title" (.strv "") with
    | strv t => rw [hjt] at h; cases h; rfl
    | nullv => rw [hjt] at h; simp at h
    | boolv b => rw [hjt] at h; simp at h
    | numv lex => rw [hjt] at h; simp at h
    | arrv xs => rw [hjt] at h; simp at h
    | objv fl => rw [hjt] at h; simp at h

theorem insertLoop_objs_ok (today : Int) :
    ∀ (objs : List (List (String × JValue))) (db : List StoredRow) (nid cnt : Nat),
    (∀ kvs ∈ objs, (buildRow today (.objv kvs)).isSome) →
    (∀ r ∈ db, r.id < nid) →
    ∃ newRows, insertLoop today (objs.map .objv) [] db nid cnt
        = some (db ++ newRows, nid + objs.length, cnt + objs.length)
      ∧ newRows.map (fun r => r.posted_date)
        = objs.map (fun kvs => postingDateOf today (pyGet kvs "posting_date" (.strv ""))) := by
  intro objs
  induction objs with
  | nil =>
    intro db nid cnt _ _
    exact ⟨[], by simp [insertLoop], by simp⟩
  | cons kvs rest ih =>
    intro db nid cnt hb hfresh
    obtain ⟨rd, hrd⟩ := Option.isSome_iff_exists.mp (hb kvs (by simp))
    have hexec : dbExecute db (mkStored nid rd) none = .ok := by
      apply dbExecute_none_fresh
      intro r0 hr0
      have := hfresh r0 hr0
      simp only [mkStored]
      omega
    obtain ⟨newRows, hloop, hmap⟩ := ih (db ++ [mkStored nid rd]) (nid + 1) (cnt + 1)
      (fun kv hkv => hb kv (by simp [hkv]))
      (fun r0 hr0 => by
        rcases List.mem_append.mp hr0 with h1 | h1
        · exact Nat.lt_succ_of_lt (hfresh r0 h1)
        · simp at h1
          subst h1
          simp [mkStored])
    refine ⟨mkStored nid rd :: newRows, ?_, ?_⟩
    · have step : insertLoop today ((kvs :: rest).map .objv) [] db nid cnt
          = insertLoop today (rest.map .objv) [] (db ++ [mkStored nid rd])
              (nid + 1) (cnt + 1) := by
        simp only [List.map_cons, insertLoop, hrd, List.headD_nil, hexec,
          List.tail_nil]
      rw [step, hloop]
      simp only [Option.some.injEq, Prod.mk.injEq, List.length_cons]
      refine ⟨by simp, by omega, by omega⟩
    · simp only [List.map_cons]
      rw [hmap]
      congr 1
      exact buildRow_posted_date today kvs rd hrd

/-- C1 (amended).  In insert_jobs each posted_date is derived independently
from that record alone: parse the text before the first space of the
posting_date value with the d-m-Y format, falling back to the current date.
With no external faults the whole batch commits, every record is counted,
and the stored posted_date sequence equals the per-record derivations in
batch order.  No running cursor, random offset, monotonicity or 24-hour
bound is involved. -/
theorem insert_jobs_posted_date_per_record (today : Int) (db : List StoredRow)
    (nid : Nat) (objs : List (List (String × JValue)))
    (hb : ∀ kvs ∈ objs, (buildRow today (.objv kvs)).isSome)
    (hfresh : ∀ r ∈ db, r.id < nid) :
    (insert_jobs db nid today [] (objs.map .objv)).committed = true
    ∧ (insert_jobs db nid today [] (objs.map .objv)).count = objs.length
    ∧ ((insert_jobs db nid today [] (objs.map .objv)).db.drop db.length).map
        (fun r => r.posted_date)
      = objs.map (fun kvs => postingDateOf today (pyGet kvs "posting_date" (.strv ""))) := by
  obtain ⟨newRows, hloop, hmap⟩ := insertLoop_objs_ok today objs db nid 0 hb hfresh
  simp only [insert_jobs, hloop]
  refine ⟨trivial, by simp, ?_⟩
  rw [List.drop_left]
  exact hmap

/-- Witness for C1 at a concrete one-record batch whose posting_date text
parses. -/
theorem insert_jobs_posted_date_per_record_witness :
    (insert_jobs [] 1 sampleToday [] ([sampleKvs].map .objv)).committed = true
    ∧ ((insert_jobs [] 1 sampleToday [] ([sampleKvs].map .objv)).db.drop 0).map
        (fun r => r.posted_date)
      = [daysFromCivil 2024 1 2] := by
  have h := insert_jobs_posted_date_per_record sampleToday [] 1 [sampleKvs]
    (by decide) (by simp)
  exact ⟨h.1, h.2.2.trans (by decide)⟩

/-- Counterexample to C1 as stated: a three-record batch whose stored
posted_date sequence decreases from the first to the second record, and
whose third record is dated years past the current date plus one day, so
the sequence is neither non-decreasing nor bounded by 24 hours ahead. -/
theorem insert_jobs_posted_dates_not_monotone :
    (insert_jobs [] 1 sampleToday [] [sjob1, sjob2, sjob3]).db.map
        (fun r => r.posted_date)
      = [daysFromCivil 2024 1 2, daysFromCivil 2024 1 1, daysFromCivil 2030 1 1]
    ∧ daysFromCivil 2024 1 1 < daysFromCivil 2024 1 2
    ∧ sampleToday + 1 < daysFromCivil 2030 1 1 := by decide

theorem insertLoop_no_other_fault (today : Int) :
    ∀ (jobs : List JValue) (faults : List (Option Fault)) (db : List StoredRow)
      (nid cnt : Nat),
    (∀ j ∈ jobs, (buildRow today j).isSome) →
    (∀ r ∈ db, r.id < nid) →
    some Fault.otherFault ∉ faults →
    ∃ db2 nid2 cnt2, insertLoop today jobs faults db nid cnt = some (db2, nid2, cnt2)
      ∧ cnt2 = cnt + (jobs.length
          - (faults.take jobs.length).countP
              (fun f => decide (f = some Fault.integrityFault)))
      ∧ db2.length = db.length + (jobs.length
          - (faults.take jobs.length).countP
              (fun f => decide (f = some Fault.integrityFault))) := by
  intro jobs
  induction jobs with
  | nil =>
    intro faults db nid cnt _ _ _
    exact ⟨db, nid, cnt, by simp [insertLoop], by simp, by simp⟩
  | cons j rest ih =>
    intro faults db nid cnt hb hfresh hnof
    obtain ⟨rd, hrd⟩ := Option.isSome_iff_exists.mp (hb j (by simp))
    have hbnext : ∀ x ∈ rest, (buildRow today x).isSome :=
      fun x hx => hb x (by simp [hx])
    have hfreshnext : ∀ r0 ∈ db ++ [mkStored nid rd], r0.id < nid + 1 := by
      intro r0 hr0
      rcases List.mem_append.mp hr0 with h1 | h1
      · exact Nat.lt_succ_of_lt (hfresh r0 h1)
      · simp at h1
        subst h1
        simp [mkStored]
    have hexec : dbExecute db (mkStored nid rd) none = .ok := by
      apply dbExecute_none_fresh
      intro r0 hr0
      have := hfresh r0 hr0
      simp only [mkStored]
      omega
    match faults with
    | [] =>
      obtain ⟨db2, nid2, cnt2, hloop, hcnt, hlen⟩ :=
        ih [] (db ++ [mkStored nid rd]) (nid + 1) (cnt + 1) hbnext hfreshnext
          (by simp)
      refine ⟨db2, nid2, cnt2, ?_, ?_, ?_⟩
      · simp only [insertLoop, hrd, List.headD_nil, hexec, List.tail_nil]
        exact hloop
      · simp only [List.take_nil, List.countP_nil] at hcnt ⊢
        simp only [List.length_cons]
        omega
      · simp only [List.take_nil, List.countP_nil, List.length_append,
          List.length_cons, List.length_nil] at hlen ⊢
        omega
    | f :: fr =>
      have hf : f ≠ some Fault.otherFault :=
        fun hfe => hnof (hfe ▸ List.mem_cons_self f fr)
      have hnofr : some Fault.otherFault ∉ fr :=
        fun hm => hnof (List.mem_cons_of_mem f hm)
      have hS : (fr.take rest.length).countP
          (fun f2 => decide (f2 = some Fault.integrityFault)) ≤ rest.length := by
        refine le_trans (List.countP_le_length _) ?_
        rw [List.length_take]
        exact min_le_left _ _
      match f with
      | some Fault.otherFault => exact absurd rfl hf
      | some Fault.integrityFault =>
        obtain ⟨db2, nid2, cnt2, hloop, hcnt, hlen⟩ :=
          ih fr db nid cnt hbnext hfresh hnofr
        refine ⟨db2, nid2, cnt2, ?_, ?_, ?_⟩
        · simp only [insertLoop, hrd, List.headD_cons, dbExecute, List.tail_cons]
          exact hloop
        · simp only [List.length_cons, List.take_succ_cons, List.countP_cons]
          simp only [decide_eq_true_eq]
          simp
          omega
        · simp only [List.length_cons, List.take_succ_cons, List.countP_cons]
          simp
          omega
      | none =>
        obtain ⟨db2, nid2, cnt2, hloop, hcnt, hlen⟩ :=
          ih fr (db ++ [mkStored nid rd]) (nid + 1) (cnt + 1) hbnext hfreshnext
            hnofr
        refine ⟨db2, nid2, cnt2, ?_, ?_, ?_⟩
        · simp only [insertLoop, hrd, List.headD_cons, hexec, List.tail_cons]
          exact hloop
        · simp only [List.length_cons, List.take_succ_cons, List.countP_cons]
          simp
          omega
        · simp only [List.length_cons, List.take_succ_cons, List.countP_cons,
            List.length_append, List.length_nil] at hlen ⊢
          simp at hlen ⊢
          omega

theorem insertLoop_other_fault_none (today : Int) :
    ∀ (jobs : List JValue) (pre post : List (Option Fault)) (db : List StoredRow)
      (nid cnt : Nat),
    (∀ j ∈ jobs, (buildRow today j).isSome) →
    (∀ f ∈ pre, f ≠ some Fault.otherFault) →
    pre.length < jobs.length →
    insertLoop today jobs (pre ++ some Fault.otherFault :: post) db nid cnt
      = none := by
  intro jobs
  induction jobs with
  | nil =>
    intro pre post db nid cnt _ _ hlt
    simp at hlt
  | cons j rest ih =>
    intro pre post db nid cnt hb hpre hlt
    obtain ⟨rd, hrd⟩ := Option.isSome_iff_exists.mp (hb j (by simp))
    have hbnext : ∀ x ∈ rest, (buildRow today x).isSome :=
      fun x hx => hb x (by simp [hx])
    match pre with
    | [] =>
      simp [insertLoop, hrd, dbExecute]
    | f :: pr =>
      have hf : f ≠ some Fault.otherFault := hpre f (by simp)
      have hprenext : ∀ f2 ∈ pr, f2 ≠ some Fault.otherFault :=
        fun f2 h2 => hpre f2 (by simp [h2])
      have hltnext : pr.length < rest.length := by
        simp only [List.length_cons] at hlt
        omega
      match f with
      | some Fault.otherFault => exact absurd rfl hf
      | some Fault.integrityFault =>
        simp only [List.cons_append, insertLoop, hrd, List.headD_cons,
          dbExecute, List.tail_cons]
        exact ih pr post db nid cnt hbnext hprenext hltnext
      | none =>
        cases hex : dbExecute db (mkStored nid rd) none with
        | ok =>
          simp only [List.cons_append, insertLoop, hrd, List.headD_cons, hex,
            List.tail_cons]
          exact ih pr post _ _ _ hbnext hprenext hltnext
        | integrityError =>
          simp only [List.cons_append, insertLoop, hrd, List.headD_cons, hex,
            List.tail_cons]
          exact ih pr post db nid cnt hbnext hprenext hltnext
        | otherError => exact absurd hex (dbExecute_none_ne_other db _)

/-- C2 (amended).  Error isolation in insert_jobs: a per-record uniqueness
violation (IntegrityError) is caught, that record alone is skipped and not
counted, and the rest of the batch proceeds in one committed transaction;
but any other error raised while inserting a single record is not isolated:
it escapes the per-record handler, the whole transaction is rolled back,
and zero records of the batch are committed. -/
theorem insert_jobs_error_isolation (today : Int) (db : List StoredRow)
    (nid : Nat) (jobs : List JValue)
    (hb : ∀ j ∈ jobs, (buildRow today j).isSome)
    (hfresh : ∀ r ∈ db, r.id < nid) :
    (∀ faults, some Fault.otherFault ∉ faults →
      (insert_jobs db nid today faults jobs).committed = true
      ∧ (insert_jobs db nid today faults jobs).count
          + (faults.take jobs.length).countP
              (fun f => decide (f = some Fault.integrityFault))
        = jobs.length
      ∧ (insert_jobs db nid today faults jobs).db.length
        = db.length + (insert_jobs db nid today faults jobs).count)
    ∧ (∀ pre post, (∀ f ∈ pre, f ≠ some Fault.otherFault) →
        pre.length < jobs.length →
        insert_jobs db nid today (pre ++ some Fault.otherFault :: post) jobs
          = ⟨db, nid, 0, false⟩) := by
  constructor
  · intro faults hnof
    obtain ⟨db2, nid2, cnt2, hloop, hcnt, hlen⟩ :=
      insertLoop_no_other_fault today jobs faults db nid 0 hb hfresh hnof
    have hS : (faults.take jobs.length).countP
        (fun f => decide (f = some Fault.integrityFault)) ≤ jobs.length := by
      refine le_trans (List.countP_le_length _) ?_
      rw [List.length_take]
      exact min_le_left _ _
    simp only [insert_jobs, hloop]
    refine ⟨trivial, by omega, by omega⟩
  · intro pre post hpre hlt
    simp only [insert_jobs,
      insertLoop_other_fault_none today jobs pre post db nid 0 hb hpre hlt]

/-- Witness for C2: a two-record batch where an IntegrityError on the first
record skips only that record and commits the second, while an injected
non-integrity error on the first execution rolls back the whole batch. -/
theorem insert_jobs_error_isolation_witness :
    (insert_jobs [] 1 sampleToday [some Fault.integrityFault] [sjob1, sjob2]).committed
        = true
    ∧ (insert_jobs [] 1 sampleToday [some Fault.integrityFault] [sjob1, sjob2]).count
          + ([some Fault.integrityFault].take 2).countP
              (fun f => decide (f = some Fault.integrityFault))
        = 2
    ∧ insert_jobs [] 1 sampleToday ([] ++ some Fault.otherFault :: []) [sjob1, sjob2]
        = ⟨[], 1, 0, false⟩ := by
  have h := insert_jobs_error_isolation sampleToday [] 1 [sjob1, sjob2]
    (by decide) (by simp)
  exact ⟨(h.1 [some Fault.integrityFault] (by decide)).1,
         (h.1 [some Fault.integrityFault] (by decide)).2.1,
         h.2 [] [] (by simp) (by decide)⟩

/-- Counterexample to C2 as stated: a non-integrity error while inserting
the first record does not merely skip that record - the whole batch rolls
back, and the perfectly fine second record (buildable, no fault of its
own) is not stored. -/
theorem other_error_aborts_whole_batch :
    (insert_jobs [] 1 sampleToday [some Fault.otherFault] [sjob1, sjob2]).db = []
    ∧ (insert_jobs [] 1 sampleToday [some Fault.otherFault] [sjob1, sjob2]).committed
        = false
    ∧ (buildRow sampleToday sjob2).isSome = true := by decide

/-- C3 (amended).  The insert path does silently skip a record whose INSERT
raises a uniqueness violation (skipped, not counted, the batch still
commits), but the declared schema carries no uniqueness constraint at all
beyond the surrogate primary key, so under the schema-derived execution
no duplicate is ever rejected: inserting the same exact record twice
stores two rows with identical content and distinct surrogate ids. -/
theorem insert_jobs_duplicate_handling (today : Int) (nid : Nat)
    (kvs : List (String × JValue)) (hb : (buildRow today (.objv kvs)).isSome) :
    job_postings.filter (fun c => c.unique) = []
    ∧ insert_jobs [] nid today [some Fault.integrityFault] [.objv kvs]
        = ⟨[], nid, 0, true⟩
    ∧ ∃ rd, buildRow today (.objv kvs) = some rd
        ∧ (insert_jobs [] nid today [] [.objv kvs, .objv kvs]).db
          = [mkStored nid rd, mkStored (nid + 1) rd] := by
  obtain ⟨rd, hrd⟩ := Option.isSome_iff_exists.mp hb
  refine ⟨by decide, ?_, rd, hrd, ?_⟩
  · simp [insert_jobs, insertLoop, hrd, dbExecute]
  · have hex1 : dbExecute [] (mkStored nid rd) none = .ok :=
      dbExecute_none_fresh _ _ (by simp)
    have hex2 : dbExecute [mkStored nid rd] (mkStored (nid + 1) rd) none = .ok := by
      apply dbExecute_none_fresh
      intro r0 h0
      simp at h0
      subst h0
      simp [mkStored]
    simp [insert_jobs, insertLoop, hrd, hex1, hex2]

/-- Witness for C3: the concrete sample record, where a uniqueness
violation signalled by the store is skipped silently and the batch still
commits. -/
theorem insert_jobs_duplicate_handling_witness :
    insert_jobs [] 1 sampleToday [some Fault.integrityFault] [.objv sampleKvs]
      = ⟨[], 1, 0, true⟩ :=
  (insert_jobs_duplicate_handling sampleToday 1 sampleKvs (by decide)).2.1

/-- Counterexample to C3 as stated: under the declared schema (which has no
uniqueness constraint) inserting the same exact record twice commits two
rows whose contents coincide, not at most one. -/
theorem duplicate_insert_stores_two_rows :
    (insert_jobs [] 1 sampleToday [] [.objv sampleKvs, .objv sampleKvs]).committed
        = true
    ∧ (insert_jobs [] 1 sampleToday [] [.objv sampleKvs, .objv sampleKvs]).db.length
        = 2
    ∧ ¬ ((insert_jobs [] 1 sampleToday [] [.objv sampleKvs, .objv sampleKvs]).db.map
          (fun r => r.toRowData)).Nodup := by decide

/-! ### Helper lemmas about the orchestrator -/

theorem insertLoop_mem_mono (today : Int) :
    ∀ (jobs : List JValue) (faults : List (Option Fault)) (db : List StoredRow)
      (nid cnt : Nat) (db2 : List StoredRow) (nid2 cnt2 : Nat),
    insertLoop today jobs faults db nid cnt = some (db2, nid2, cnt2) →
    ∀ r ∈ db, r ∈ db2 := by
  intro jobs
  induction jobs with
  | nil =>
    intro faults db nid cnt db2 nid2 cnt2 h r hr
    simp [insertLoop] at h
    rw [← h.1]
    exact hr
  | cons j rest ih =>
    intro faults db nid cnt db2 nid2 cnt2 h r hr
    simp only [insertLoop] at h
    split at h
    · simp at h
    · split at h
      · exact ih _ _ _ _ _ _ _ h r (by simp [hr])
      · exact ih _ _ _ _ _ _ _ h r hr
      · simp at h

theorem filter_length_split (p : StoredRow → Bool) (db : List StoredRow) :
    (db.filter (fun r => !p r)).length + (db.filter p).length = db.length := by
  induction db with
  | nil => rfl
  | cons r rest ih =>
    by_cases h : p r <;> simp [List.filter_cons, h] <;> omega

/-- C4 (amended).  delete_old implements exactly the 30-day retention
pruning in one transaction: a posting is kept after the call precisely
when its posted_date is not before today minus 30 days, the reported
rowcount plus the kept rows account for the whole table, a posting dated
31 days ago is deleted and one dated 29 days ago is retained.  But the
orchestrator never invokes it - the delete_old call in main is commented
out - so every pre-existing posting, however old, survives every run. -/
theorem delete_old_semantics_not_invoked (today : Int) :
    (∀ (db : List StoredRow) (r : StoredRow), r ∈ db →
      (r ∈ (delete_old today db).1 ↔ ¬ r.posted_date < today - 30))
    ∧ (∀ db : List StoredRow,
        (delete_old today db).1.length + (delete_old today db).2 = db.length)
    ∧ (∀ (db : List StoredRow) (r : StoredRow), r ∈ db →
        r.posted_date = today - 31 → r ∉ (delete_old today db).1)
    ∧ (∀ (db : List StoredRow) (r : StoredRow), r ∈ db →
        r.posted_date = today - 29 → r ∈ (delete_old today db).1)
    ∧ (∀ (fe : Bool) (lines : List String) (llm : String → String)
        (faults : List (Option Fault)) (db : List StoredRow) (nid : Nat)
        (r : StoredRow), r ∈ db → r ∈ (main fe lines llm today faults db nid).db) := by
  have hmem : ∀ (db : List StoredRow) (r : StoredRow), r ∈ db →
      (r ∈ (delete_old today db).1 ↔ ¬ r.posted_date < today - 30) := by
    intro db r hr
    simp [delete_old, List.mem_filter, hr]
  refine ⟨hmem, ?_, ?_, ?_, ?_⟩
  · intro db
    exact filter_length_split _ db
  · intro db r hr hdate
    rw [hmem db r hr, hdate]
    omega
  · intro db r hr hdate
    rw [hmem db r hr, hdate]
    omega
  · intro fe lines llm faults db nid r hr
    simp only [main]
    split
    · split
      · exact hr
      · simp only [insert_jobs]
        split
        next heq => exact insertLoop_mem_mono today _ _ _ _ _ _ _ _ heq r hr
        next => exact hr
    · exact hr

/-- Witness for C4 at a concrete table: the sample expired posting is
deleted when delete_old runs. -/
theorem delete_old_semantics_not_invoked_witness :
    (oldRow ∈ (delete_old sampleToday [oldRow]).1
      ↔ ¬ oldRow.posted_date < sampleToday - 30)
    ∧ oldRow ∉ (delete_old sampleToday [oldRow]).1
    ∧ oldRow ∈ (main true ["x\n"] (fun _ => goodResponse) sampleToday []
        [oldRow] 2).db := by
  have h := delete_old_semantics_not_invoked sampleToday
  exact ⟨h.1 [oldRow] oldRow (by simp),
         h.2.2.1 [oldRow] oldRow (by simp) (by decide),
         h.2.2.2.2 true ["x\n"] (fun _ => goodResponse) [] [oldRow] 2 oldRow
           (by simp)⟩

/-- Counterexample to C4 as stated: a run that persists its batch leaves a
posting dated 31 days ago (before the cutoff) in the table, because main
never prunes. -/
theorem run_retains_expired_posting :
    oldRow.posted_date = sampleToday - 31
    ∧ oldRow.posted_date < sampleToday - 30
    ∧ (main true ["x\n"] (fun _ => goodResponse) sampleToday [] [oldRow] 2).insertCommitted
        = true
    ∧ oldRow ∈ (main true ["x\n"] (fun _ => goodResponse) sampleToday [] [oldRow] 2).db
    := by decide

/-- C5 (amended).  The input file is truncated at the end of every run that
passes the existence check, whatever the extraction or insert outcome; only
a missing input file (the early return) leaves it untouched. -/
theorem input_file_truncated_every_run (lines : List String)
    (llm : String → String) (today : Int) (faults : List (Option Fault))
    (db : List StoredRow) (nid : Nat) :
    (main true lines llm today faults db nid).fileCleared = true
    ∧ (main true lines llm today faults db nid).fileAfter = []
    ∧ (main false lines llm today faults db nid).fileCleared = false
    ∧ (main false lines llm today faults db nid).fileAfter = lines := by
  refine ⟨?_, ?_, rfl, rfl⟩ <;>
    · simp only [main, clear_all_messages, if_true]
      split <;> rfl

/-- Counterexample to C5 as stated: a run that extracts nothing (the
service replied with empty text) still truncates the file, and a run whose
batch insert rolls back also truncates the file. -/
theorem run_truncates_after_failed_run :
    (main true ["x\n"] (fun _ => "") sampleToday [] [] 1).insertAttempted = false
    ∧ (main true ["x\n"] (fun _ => "") sampleToday [] [] 1).fileCleared = true
    ∧ (main true ["x\n"] (fun _ => goodResponse) sampleToday
        [some Fault.otherFault] [] 1).insertCommitted = false
    ∧ (main true ["x\n"] (fun _ => goodResponse) sampleToday
        [some Fault.otherFault] [] 1).fileCleared = true := by decide

/-- C6 (amended).  Every built row carries a job_title value that is a
string (never null) of at most 512 characters, and the schema declares the
job_title column non-nullable; but the title may be empty, since an absent
source key defaults to the empty string. -/
theorem job_title_never_null_truncated :
    (∃ c ∈ job_postings, c.name = "job_title" ∧ c.nullable = false
      ∧ c.dtype = "String(512)")
    ∧ ∀ (today : Int) (j : JValue) (rd : RowData), buildRow today j = some rd →
        rd.job_title.length ≤ 512 := by
  refine ⟨by decide, ?_⟩
  intro today j rd h
  cases j with
  | objv kvs =>
    simp only [buildRow] at h
    rcases hfa : fixApplyLink (pyGet kvs "apply_link" (.strv "")) with _ | apply1
    · rw [hfa] at h
      simp at h
    · rw [hfa] at h
      cases hjt : pyGet kvs "job_title" (.strv "") with
      | strv t =>
        rw [hjt] at h
        cases h
        have he : (String.mk (t.data.take 512)).length = (t.data.take 512).length :=
          rfl
        rw [he, List.length_take]
        exact min_le_left _ _
      | nullv => rw [hjt] at h; simp at h
      | boolv b => rw [hjt] at h; simp at h
      | numv lex => rw [hjt] at h; simp at h
      | arrv xs => rw [hjt] at h; simp at h
      | objv fl => rw [hjt] at h; simp at h
  | nullv => simp [buildRow] at h
  | boolv b => simp [buildRow] at h
  | numv lex => simp [buildRow] at h
  | strv s => simp [buildRow] at h
  | arrv xs => simp [buildRow] at h

/-- Witness for C6 at the concrete sample record. -/
theorem job_title_never_null_truncated_witness :
    buildRow sampleToday (.objv sampleKvs) = some srow1
    ∧ srow1.job_title.length ≤ 512 :=
  ⟨by decide,
   job_title_never_null_truncated.2 sampleToday (.objv sampleKvs) srow1 (by decide)⟩

/-- Counterexample to C6 as stated: an extracted object with no job_title
key normalizes to the empty title and is persisted that way, so a stored
row with an empty job_title exists. -/
theorem persisted_job_title_may_be_empty :
    (insert_jobs [] 1 sampleToday [] [.objv []]).committed = true
    ∧ (insert_jobs [] 1 sampleToday [] [.objv []]).db.map (fun r => r.job_title)
        = [""] := by decide

/-- C7 (amended).  The defaulting table applies exactly when the source key
is ABSENT: batch defaults to any, location to Remote, qualification to
Any Graduate, salary to Not Disclosed, and company_name, apply_link,
logo_link (source key logo_url), more_details and job_title to the empty
string; a key that is present keeps its value unchanged even when that
value is the empty string; job_title is hard-truncated to 512 characters;
and an object missing every field yields exactly the full default row. -/
theorem normalizer_defaulting (today : Int) (kvs : List (String × JValue))
    (rd : RowData) (h : buildRow today (.objv kvs) = some rd) :
    (kvs.find? (fun p => p.1 = "batch") = none → rd.batch = .strv "any")
    ∧ (∀ p, kvs.find? (fun p2 => p2.1 = "batch") = some p → rd.batch = p.2)
    ∧ (kvs.find? (fun p => p.1 = "location") = none → rd.location = .strv "Remote")
    ∧ (∀ p, kvs.find? (fun p2 => p2.1 = "location") = some p → rd.location = p.2)
    ∧ (kvs.find? (fun p => p.1 = "qualification") = none →
        rd.qualification = .strv "Any Graduate")
    ∧ (∀ p, kvs.find? (fun p2 => p2.1 = "qualification") = some p →
        rd.qualification = p.2)
    ∧ (kvs.find? (fun p => p.1 = "salary") = none →
        rd.salary = .strv "Not Disclosed")
    ∧ (∀ p, kvs.find? (fun p2 => p2.1 = "salary") = some p → rd.salary = p.2)
    ∧ (kvs.find? (fun p => p.1 = "company_name") = none →
        rd.company_name = .strv "")
    ∧ (kvs.find? (fun p => p.1 = "logo_url") = none → rd.logo_link = .strv "")
    ∧ (kvs.find? (fun p => p.1 = "more_details") = none →
        rd.more_details = .strv "")
    ∧ (kvs.find? (fun p => p.1 = "apply_link") = none → rd.apply_link = .strv "")
    ∧ (kvs.find? (fun p => p.1 = "job_title") = none → rd.job_title = "")
    ∧ (∀ p s, kvs.find? (fun p2 => p2.1 = "job_title") = some p →
        p.2 = .strv s → rd.job_title = ⟨s.data.take 512⟩)
    ∧ buildRow today (.objv ([] : List (String × JValue)))
        = some ⟨.strv "", "", .strv "any", .strv "", .strv "Remote",
            .strv "Any Graduate", .strv "Not Disclosed", .strv "", .strv "",
            today⟩ := by
  simp only [buildRow] at h
  rcases hfa : fixApplyLink (pyGet kvs "apply_link" (.strv "")) with _ | apply1
  · rw [hfa] at h
    simp at h
  · rw [hfa] at h
    cases hjt : pyGet kvs "job_title" (.strv "") with
    | strv t =>
      rw [hjt] at h
      cases h
      refine ⟨?_, ?_, ?_, ?_, ?_, ?_, ?_, ?_, ?_, ?_, ?_, ?_, ?_, ?_, rfl⟩
      · intro hfind
        simp [pyGet, hfind]
      · intro p hp
        simp [pyGet, hp]
      · intro hfind
        simp [pyGet, hfind]
      · intro p hp
        simp [pyGet, hp]
      · intro hfind
        simp [pyGet, hfind]
      · intro p hp
        simp [pyGet, hp]
      · intro hfind
        simp [pyGet, hfind]
      · intro p hp
        simp [pyGet, hp]
      · intro hfind
        simp [pyGet, hfind]
      · intro hfind
        simp [pyGet, hfind]
      · intro hfind
        simp [pyGet, hfind]
      · intro hfind
        have hp : pyGet kvs "apply_link" (.strv "") = .strv "" := by
          simp [pyGet, hfind]
        rw [hp] at hfa
        simp [fixApplyLink] at hfa
        exact hfa.symm
      · intro hfind
        simp [pyGet, hfind] at hjt
        rw [← hjt]
        rfl
      · intro p s hp hs
        simp [pyGet, hp] at hjt
        rw [hs] at hjt
        injection hjt with h2
        subst h2
        rfl
    | nullv => rw [hjt] at h; simp at h
    | boolv b => rw [hjt] at h; simp at h
    | numv lex => rw [hjt] at h; simp at h
    | arrv xs => rw [hjt] at h; simp at h
    | objv fl => rw [hjt] at h; simp at h

/-- Witness for C7 at the concrete sample record, whose object lacks the
batch and location keys. -/
theorem normalizer_defaulting_witness :
    srow1.batch = JValue.strv "any" ∧ srow1.location = JValue.strv "Remote" := by
  have h := normalizer_defaulting sampleToday sampleKvs srow1 (by decide)
  exact ⟨h.1 (by decide), h.2.2.1 (by decide)⟩

/-- Counterexample to C7 as stated: a location key that is present with an
empty value is NOT replaced by the default Remote - dict.get only
substitutes the default for an absent key. -/
theorem present_empty_location_not_defaulted :
    (buildRow sampleToday (.objv [("location", .strv "")])).map
        (fun rd => rd.location)
      = some (.strv "")
    ∧ JValue.strv "" ≠ JValue.strv "Remote" := by decide

/-! ### Helper lemmas about the posting_date derivation -/

theorem takeWhile_nospace_all : ∀ (l1 : List Char), (∀ c ∈ l1, c ≠ ' ') →
    l1.takeWhile (· ≠ ' ') = l1 := by
  intro l1
  induction l1 with
  | nil => intro _; rfl
  | cons c rest ih =>
    intro h
    have hrest : ∀ x ∈ rest, x ≠ ' ' := fun x hx => h x (List.mem_cons_of_mem c hx)
    have hc : decide (c ≠ ' ') = true := by
      simp [h c (List.mem_cons_self c rest)]
    simp only [List.takeWhile_cons]
    rw [if_pos hc, ih hrest]

theorem takeWhile_nospace_append : ∀ (l1 l2 : List Char), (∀ c ∈ l1, c ≠ ' ') →
    (l1 ++ ' ' :: l2).takeWhile (· ≠ ' ') = l1 := by
  intro l1 l2
  induction l1 with
  | nil =>
    intro _
    simp [List.takeWhile_cons]
  | cons c rest ih =>
    intro h
    have hrest : ∀ x ∈ rest, x ≠ ' ' := fun x hx => h x (List.mem_cons_of_mem c hx)
    have hc : decide (c ≠ ' ') = true := by
      simp [h c (List.mem_cons_self c rest)]
    simp only [List.cons_append, List.takeWhile_cons]
    rw [if_pos hc, ih hrest]

/-- C10.  Deriving the stored posted_date never escapes as an exception:
an absent posting_date key falls back to the current date; a non-string
value (whose split call raises inside the try) falls back to the current
date; only the text before the first space is parsed, so any time-of-day
suffix is discarded (day granularity); all records whose parse fails in
one run share the identical fallback date; a well-formed d-m-Y text maps
to that civil date; the d-m-Y-time format that the prompt requests, a
two-digit or three-digit year (%Y takes exactly four digits), an
ISO-ordered date and an invalid calendar date all fall back; and the
posted_date column is a non-nullable Date. -/
theorem posting_date_derivation (today : Int) :
    (∀ kvs : List (String × JValue),
       kvs.find? (fun p => p.1 = "posting_date") = none →
       postingDateOf today (pyGet kvs "posting_date" (.strv "")) = today)
    ∧ (∀ v : JValue, (∀ s, v ≠ .strv s) → postingDateOf today v = today)
    ∧ (∀ s t : String, (∀ c ∈ s.data, c ≠ ' ') →
        postingDateOf today (.strv (s ++ " " ++ t))
          = postingDateOf today (.strv s))
    ∧ (∀ s1 s2 : String,
        parseDMY ⟨s1.data.takeWhile (· ≠ ' ')⟩ = none →
        parseDMY ⟨s2.data.takeWhile (· ≠ ' ')⟩ = none →
        postingDateOf today (.strv s1) = postingDateOf today (.strv s2))
    ∧ postingDateOf today (.strv "05-01-2024") = daysFromCivil 2024 1 5
    ∧ postingDateOf today (.strv "05-01-2024 10:30") = daysFromCivil 2024 1 5
    ∧ postingDateOf today (.strv "12-10-2026-14:30") = today
    ∧ postingDateOf today (.strv "12-10-26 14:30") = today
    ∧ postingDateOf today (.strv "01-01-999") = today
    ∧ postingDateOf today (.strv "2024-01-05") = today
    ∧ postingDateOf today (.strv "31-02-2024") = today
    ∧ postingDateOf today (.strv "29-02-2024") = daysFromCivil 2024 2 29
    ∧ (∃ c ∈ job_postings, c.name = "posted_date" ∧ c.dtype = "Date"
        ∧ c.nullable = false) := by
  refine ⟨?_, ?_, ?_, ?_, rfl, rfl, rfl, rfl, rfl, rfl, rfl, rfl, by decide⟩
  · intro kvs hfind
    have hp : pyGet kvs "posting_date" (.strv "") = .strv "" := by
      simp [pyGet, hfind]
    rw [hp]
    rfl
  · intro v hv
    cases v with
    | strv s => exact absurd rfl (hv s)
    | nullv => rfl
    | boolv b => rfl
    | numv lex => rfl
    | arrv xs => rfl
    | objv kvs => rfl
  · intro s t hs
    simp only [postingDateOf]
    have hd : (s ++ " " ++ t).data = s.data ++ ' ' :: t.data := by
      simp [String.data_append]
    rw [hd, takeWhile_nospace_append s.data t.data hs,
      takeWhile_nospace_all s.data hs]
  · intro s1 s2 h1 h2
    simp only [postingDateOf, h1, h2]

/-- Witness for C10: the fallbacks and the space-truncation at concrete
inputs. -/
theorem posting_date_derivation_witness :
    postingDateOf sampleToday (pyGet [] "posting_date" (.strv "")) = sampleToday
    ∧ postingDateOf sampleToday .nullv = sampleToday
    ∧ postingDateOf sampleToday (.strv ("01-01-2024" ++ " " ++ "oops"))
        = postingDateOf sampleToday (.strv "01-01-2024") := by
  have h := posting_date_derivation sampleToday
  exact ⟨h.1 [] (by decide),
         h.2.1 .nullv (by intro s; simp),
         h.2.2.1 "01-01-2024" "oops" (by decide)⟩

end DpUpdater
